import Mathlib

/-!
Verification of the whitespace-normalization and color-contrast algorithms of
the Intrinsics PDF Exporter.
-/

/-- A DOM node as seen by the whitespace normalizer: a text node with its
character content, or an element with a tag name and an ordered list of
children (`src/scripts/html-normalizer.js`). -/
inductive Node where
  | text (content : List Char)
  | elem (tag : String) (children : List Node)
deriving Repr

/-- The JavaScript regular-expression whitespace class `\s`
(space, tab, line terminators, and the Unicode space separators). -/
def jsWhitespace (c : Char) : Bool :=
  let n := c.toNat
  n = 0x20 || n = 0x09 || n = 0x0A || n = 0x0D || n = 0x0B || n = 0x0C
    || n = 0xA0 || n = 0x1680 || (0x2000 ≤ n && n ≤ 0x200A)
    || n = 0x2028 || n = 0x2029 || n = 0x202F || n = 0x205F
    || n = 0x3000 || n = 0xFEFF

/-- Test `textContent.match(/^\s/)`: the content begins with a whitespace character. -/
def startsWithWS : List Char → Bool
  | [] => false
  | c :: _ => jsWhitespace c

/-- Test `textContent.match(/\s$/)`: the content ends with a whitespace character. -/
def endsWithWS (l : List Char) : Bool :=
  match l.getLast? with
  | some c => jsWhitespace c
  | none => false

/-- Test `textContent.trim() === ''` (or the content is empty). -/
def allWS (l : List Char) : Bool := l.all jsWhitespace

/-- Lower-casing `tagName.toLowerCase()` for the ASCII tag names the DOM reports. -/
def lowerChar (c : Char) : Char :=
  if 65 ≤ c.toNat ∧ c.toNat ≤ 90 then Char.ofNat (c.toNat + 32) else c

/-- Lower-casing of a whole tag name, character by character. -/
def lowerStr (s : String) : String := String.mk (s.data.map lowerChar)

/-- The fixed block-element list of `needsLeadingSpace`/`needsTrailingSpace`. -/
def blockElements : List String :=
  ["div", "p", "h1", "h2", "h3", "h4", "h5", "h6", "ul", "ol", "li",
   "blockquote", "pre", "hr", "table", "tr", "td", "th"]

/-- Function `needsLeadingSpace` of `src/scripts/html-normalizer.js`: decided from the
immediate previous sibling only (`none` models a missing sibling). -/
def needsLeadingSpace (prev : Option Node) : Bool :=
  match prev with
  | none => false
  | some (.elem tag _) => !(blockElements.contains (lowerStr tag))
  | some (.text s) => !(endsWithWS s)

/-- Function `needsTrailingSpace` of `src/scripts/html-normalizer.js`: decided from the
immediate next sibling only. -/
def needsTrailingSpace (next : Option Node) : Bool :=
  match next with
  | none => false
  | some (.elem tag _) => !(blockElements.contains (lowerStr tag))
  | some (.text s) => !(startsWithWS s)

/-- The per-text-node effect of one `normalizeWhitespace` pass: whitespace-only
nodes are skipped; otherwise the collected leading fix is applied first (guarded
by `/^\s/`) and then the trailing fix (guarded by `/\s$/` on the current
content), exactly as in the collect-then-apply loop of the source. The
decisions `needsLeadingSpace`/`needsTrailingSpace` are taken on the siblings'
pre-pass content, which the caller passes in. -/
def fixText (prev next : Option Node) (s : List Char) : List Char :=
  if allWS s then s
  else
    let s1 := if needsLeadingSpace prev && !(startsWithWS s) then ' ' :: s else s
    if needsTrailingSpace next && !(endsWithWS s1) then s1 ++ [' '] else s1

mutual
/-- Function `normalizeWhitespace` of `src/scripts/html-normalizer.js`: walks every text
descendant and applies the collected spacing fixes. All decisions are taken
against the pre-pass tree, so each sibling passed to `fixText` is the original
one. -/
def normalizeWhitespace : Node → Node
  | .text s => .text s
  | .elem t cs => .elem t (normSibs none cs)

/-- Process one children list: each text child is fixed against its original
immediate siblings; element children are recursed into. -/
def normSibs : Option Node → List Node → List Node
  | _, [] => []
  | prev, c :: rest => normChild prev rest.head? c :: normSibs (some c) rest

/-- Process a single child given its original previous and next siblings. -/
def normChild : Option Node → Option Node → Node → Node
  | prev, next, .text s => .text (fixText prev next s)
  | _, _, .elem t cs => .elem t (normSibs none cs)
end

mutual
/-- The text content rendered by the tree: the concatenation of all text
leaves in document order. -/
def renderText : Node → List Char
  | .text s => s
  | .elem _ cs => renderList cs

/-- Concatenated text content of a list of trees. -/
def renderList : List Node → List Char
  | [] => []
  | c :: rest => renderText c ++ renderList rest
end

/-- A pass can only add whitespace at the edges of a text node: this relation
holds between a text content and any content obtained from it that way. -/
def textSim (s t : List Char) : Prop :=
  (endsWithWS s = true → endsWithWS t = true) ∧
    (startsWithWS s = true → startsWithWS t = true)

/-- Everything the sibling-inspection predicates can observe is preserved from
a node to its normalized version: the constructor, the tag, and (monotonically)
the whitespace at the edges of text content. -/
def nodeSim : Node → Node → Prop
  | .text s, .text t => textSim s t
  | .elem tag _, .elem tag' _ => tag = tag'
  | _, _ => False

/-- Relation `nodeSim` lifted to optional siblings. -/
def optSim : Option Node → Option Node → Prop
  | none, none => True
  | some a, some b => nodeSim a b
  | _, _ => False

theorem endsWithWS_concat_space (s : List Char) : endsWithWS (s ++ [' ']) = true := by
  simp [endsWithWS, List.getLast?_concat, jsWhitespace]

theorem startsWithWS_cons_space (s : List Char) : startsWithWS (' ' :: s) = true := by
  simp [startsWithWS, jsWhitespace]

theorem endsWithWS_cons_of_ne (c : Char) (s : List Char) (h : s ≠ []) :
    endsWithWS (c :: s) = endsWithWS s := by
  cases s with
  | nil => exact absurd rfl h
  | cons d t => simp [endsWithWS, List.getLast?_cons_cons]

theorem startsWithWS_append_of_ne (s t : List Char) (h : s ≠ []) :
    startsWithWS (s ++ t) = startsWithWS s := by
  cases s with
  | nil => exact absurd rfl h
  | cons d u => simp [startsWithWS]

theorem allWS_nil : allWS [] = true := rfl

theorem ne_nil_of_not_allWS {s : List Char} (h : allWS s = false) : s ≠ [] := by
  intro hs; rw [hs] at h; exact absurd h (by simp [allWS])

theorem endsWithWS_append_of_ne (s t : List Char) (h : t ≠ []) :
    endsWithWS (s ++ t) = endsWithWS t := by
  unfold endsWithWS
  rw [List.getLast?_append_of_ne_nil _ h]

/-- Closed form of one pass over a non-whitespace-only text node: a space is
prefixed exactly when the previous sibling demands one and none is present,
and a space is suffixed exactly when the next sibling demands one and none is
present. -/
theorem fixText_spec (p n : Option Node) (s : List Char) (h : allWS s = false) :
    fixText p n s =
      (if needsLeadingSpace p && !startsWithWS s then [' '] else []) ++ s ++
        (if needsTrailingSpace n && !endsWithWS s then [' '] else []) := by
  have hs : s ≠ [] := ne_nil_of_not_allWS h
  have hends : endsWithWS (if needsLeadingSpace p && !startsWithWS s then ' ' :: s else s)
      = endsWithWS s := by
    split
    · exact endsWithWS_cons_of_ne _ _ hs
    · rfl
  simp only [fixText, h, Bool.false_eq_true, if_false, hends]
  split <;> split <;> simp

theorem allWS_fixText (p n : Option Node) (s : List Char) :
    allWS (fixText p n s) = allWS s := by
  by_cases h : allWS s = true
  · simp [fixText, h]
  · rw [Bool.not_eq_true] at h
    rw [fixText_spec p n s h, h]
    simp only [allWS, List.all_append]
    rw [show (s.all jsWhitespace) = false from h]
    simp

theorem endsWithWS_fixText (p n : Option Node) (s : List Char)
    (h : endsWithWS s = true) : endsWithWS (fixText p n s) = true := by
  have hs : s ≠ [] := by intro hs; rw [hs] at h; simp [endsWithWS] at h
  by_cases hws : allWS s = true
  · simpa [fixText, hws] using h
  · rw [Bool.not_eq_true] at hws
    rw [fixText_spec p n s hws, h]
    simp only [Bool.not_true, Bool.and_false, Bool.false_eq_true, if_false, List.append_nil]
    rw [endsWithWS_append_of_ne _ _ hs]
    exact h

theorem startsWithWS_fixText (p n : Option Node) (s : List Char)
    (h : startsWithWS s = true) : startsWithWS (fixText p n s) = true := by
  have hs : s ≠ [] := by intro hs; rw [hs] at h; simp [startsWithWS] at h
  by_cases hws : allWS s = true
  · simpa [fixText, hws] using h
  · rw [Bool.not_eq_true] at hws
    rw [fixText_spec p n s hws]
    split
    · exact startsWithWS_cons_space _
    · rw [List.nil_append, startsWithWS_append_of_ne _ _ hs]
      exact h

/-- After a pass on a non-whitespace-only node, a leading space demanded by the
previous sibling is present. -/
theorem fixText_leading (p n : Option Node) (s : List Char) (h : allWS s = false)
    (hp : needsLeadingSpace p = true) : startsWithWS (fixText p n s) = true := by
  have hs : s ≠ [] := ne_nil_of_not_allWS h
  rw [fixText_spec p n s h, hp]
  by_cases hst : startsWithWS s = true
  · rw [hst]
    simp only [Bool.not_true, Bool.and_false, Bool.false_eq_true, if_false, List.nil_append]
    rw [startsWithWS_append_of_ne _ _ hs]
    exact hst
  · rw [Bool.not_eq_true] at hst
    rw [hst]
    simp only [Bool.not_false, Bool.and_true, if_true, List.cons_append]
    exact startsWithWS_cons_space _

/-- After a pass on a non-whitespace-only node, a trailing space demanded by
the next sibling is present. -/
theorem fixText_trailing (p n : Option Node) (s : List Char) (h : allWS s = false)
    (hn : needsTrailingSpace n = true) : endsWithWS (fixText p n s) = true := by
  have hs : s ≠ [] := ne_nil_of_not_allWS h
  rw [fixText_spec p n s h, hn]
  by_cases he : endsWithWS s = true
  · rw [he]
    simp only [Bool.not_true, Bool.and_false, Bool.false_eq_true, if_false, List.append_nil]
    rw [endsWithWS_append_of_ne _ _ hs]
    exact he
  · rw [Bool.not_eq_true] at he
    rw [he]
    simp only [Bool.not_false, Bool.and_true, if_true]
    rw [List.append_assoc, endsWithWS_append_of_ne _ _ (by simp : s ++ [' '] ≠ [])]
    exact endsWithWS_concat_space s

/-- The guards of the apply phase: when the demanded spaces are already
present, the pass leaves the content unchanged. -/
theorem fixText_stable (p n : Option Node) (s : List Char)
    (hp : needsLeadingSpace p = true → startsWithWS s = true)
    (hn : needsTrailingSpace n = true → endsWithWS s = true) : fixText p n s = s := by
  by_cases hws : allWS s = true
  · simp [fixText, hws]
  · rw [Bool.not_eq_true] at hws
    rw [fixText_spec p n s hws]
    have h1 : (needsLeadingSpace p && !startsWithWS s) = false := by
      cases hL : needsLeadingSpace p
      · simp
      · simp [hp hL]
    have h2 : (needsTrailingSpace n && !endsWithWS s) = false := by
      cases hT : needsTrailingSpace n
      · simp
      · simp [hn hT]
    rw [h1, h2]
    simp

theorem needsLeading_mono {p p' : Option Node} (h : optSim p p')
    (h' : needsLeadingSpace p' = true) : needsLeadingSpace p = true := by
  match p, p' with
  | none, none => exact h'
  | none, some _ => exact False.elim h
  | some _, none => exact False.elim h
  | some (.text s), some (.text t) =>
    have ht : textSim s t := h
    simp only [needsLeadingSpace, Bool.not_eq_true'] at h' ⊢
    cases hc : endsWithWS s with
    | false => rfl
    | true => exact absurd (ht.1 hc) (by simp [h'])
  | some (.elem tag cs), some (.elem tag' cs') =>
    have htag : tag = tag' := h
    simpa [needsLeadingSpace, htag] using h'
  | some (.text _), some (.elem _ _) => exact False.elim h
  | some (.elem _ _), some (.text _) => exact False.elim h

theorem needsTrailing_mono {p p' : Option Node} (h : optSim p p')
    (h' : needsTrailingSpace p' = true) : needsTrailingSpace p = true := by
  match p, p' with
  | none, none => exact h'
  | none, some _ => exact False.elim h
  | some _, none => exact False.elim h
  | some (.text s), some (.text t) =>
    have ht : textSim s t := h
    simp only [needsTrailingSpace, Bool.not_eq_true'] at h' ⊢
    cases hc : startsWithWS s with
    | false => rfl
    | true => exact absurd (ht.2 hc) (by simp [h'])
  | some (.elem tag cs), some (.elem tag' cs') =>
    have htag : tag = tag' := h
    simpa [needsTrailingSpace, htag] using h'
  | some (.text _), some (.elem _ _) => exact False.elim h
  | some (.elem _ _), some (.text _) => exact False.elim h

/-- A node is `nodeSim`-similar to its one-pass normalization. -/
theorem nodeSim_normChild (p n : Option Node) (c : Node) :
    nodeSim c (normChild p n c) := by
  cases c with
  | text s =>
    show textSim s (fixText p n s)
    exact ⟨endsWithWS_fixText p n s, startsWithWS_fixText p n s⟩
  | elem t cs => show t = t; rfl

/-- A second pass changes no text content: the whole collect-then-apply loop
of `normalizeWhitespace` is a no-op on content already fixed once, provided
the siblings are the one-pass outputs of the original siblings (`optSim`). -/
theorem fixText_fixText {p n p' n' : Option Node} (s : List Char)
    (hp : optSim p p') (hn : optSim n n') :
    fixText p' n' (fixText p n s) = fixText p n s := by
  by_cases hws : allWS s = true
  · have h1 : fixText p n s = s := by simp [fixText, hws]
    rw [h1]
    simp [fixText, hws]
  · rw [Bool.not_eq_true] at hws
    refine fixText_stable p' n' _ (fun hL => ?_) (fun hT => ?_)
    · exact fixText_leading p n s hws (needsLeading_mono hp hL)
    · exact fixText_trailing p n s hws (needsTrailing_mono hn hT)

/-- The heads of a children list and of its one-pass normalization are
`optSim`-similar. -/
theorem optSim_head (p : Option Node) (rest : List Node) :
    optSim rest.head? (normSibs p rest).head? := by
  match rest with
  | [] => trivial
  | d :: rest' =>
    show optSim (some d) (normSibs p (d :: rest')).head?
    simp only [normSibs, List.head?_cons]
    exact nodeSim_normChild _ _ d

/-- Combined induction: a second pass over an already-normalized children list
(or child) is the identity, whenever the surrounding sibling context of the
second pass is the one-pass image of the context of the first. -/
theorem normIdemAux : ∀ k : ℕ,
    (∀ l : List Node, sizeOf l ≤ k → ∀ p p', optSim p p' →
      normSibs p' (normSibs p l) = normSibs p l) ∧
    (∀ c : Node, sizeOf c ≤ k → ∀ p n p' n', optSim p p' → optSim n n' →
      normChild p' n' (normChild p n c) = normChild p n c) := by
  intro k
  induction k using Nat.strong_induction_on with
  | _ k ih =>
    constructor
    · intro l hl p p' hpp
      match l with
      | [] => rfl
      | c :: rest =>
        have hc : sizeOf c < k := by
          simp only [List.cons.sizeOf_spec] at hl; omega
        have hrest : sizeOf rest < k := by
          simp only [List.cons.sizeOf_spec] at hl; omega
        simp only [normSibs]
        congr 1
        · exact (ih (sizeOf c) hc).2 c le_rfl p rest.head? p'
            (normSibs (some c) rest).head? hpp (optSim_head (some c) rest)
        · exact (ih (sizeOf rest) hrest).1 rest le_rfl (some c)
            (some (normChild p rest.head? c)) (nodeSim_normChild p rest.head? c)
    · intro c hcs p n p' n' hpp hnn
      match c with
      | .text s =>
        simp only [normChild]
        exact congrArg Node.text (fixText_fixText s hpp hnn)
      | .elem t cs =>
        have hsz : sizeOf cs < k := by
          simp only [Node.elem.sizeOf_spec] at hcs; omega
        simp only [normChild]
        exact congrArg (Node.elem t) ((ih (sizeOf cs) hsz).1 cs le_rfl none none trivial)

/-- C1: the whitespace normalizer is idempotent — running `normalizeWhitespace`
on the result of `normalizeWhitespace` performs zero further mutations, for
every finite tree. -/
theorem normalizeWhitespace_idempotent (T : Node) :
    normalizeWhitespace (normalizeWhitespace T) = normalizeWhitespace T := by
  cases T with
  | text s => rfl
  | elem t cs =>
    simp only [normalizeWhitespace]
    exact congrArg (Node.elem t)
      (((normIdemAux (sizeOf cs)).1 cs le_rfl) none none trivial)

/-- The input tree of Scenario A: `<span>Hello</span><em>world</em>`. -/
def sampleA : Node :=
  .elem "div" [.elem "span" [.text "Hello".data], .elem "em" [.text "world".data]]

/-- C2 (counterexample): on `<span>Hello</span><em>world</em>` one
`normalizeWhitespace` pass mutates nothing — each text leaf is an only child
with no siblings at all — so the rendered text is `Helloworld` and contains no
space between the words, contradicting the claim that a boundary space is
gained. -/
theorem scenarioA_no_space :
    normalizeWhitespace sampleA = sampleA ∧
    renderText (normalizeWhitespace sampleA) = "Helloworld".data ∧
    ' ' ∉ renderText (normalizeWhitespace sampleA) :=
  ⟨rfl, rfl, by decide⟩

/-- C2 (amended): on `<span>Hello</span><em>world</em>` the pass performs zero
mutations, because each leaf's decision procedure inspects only its immediate
siblings and both leaves are only children; a boundary space is inserted only
when a text leaf is itself directly adjacent to an inline element, as in
`Hello<em>world</em>`. -/
theorem scenarioA_amended :
    normalizeWhitespace sampleA = sampleA ∧
    normalizeWhitespace (.elem "div" [.text "Hello".data, .elem "em" [.text "world".data]]) =
      .elem "div" [.text "Hello ".data, .elem "em" [.text "world".data]] :=
  ⟨rfl, by rfl⟩

/-- C9: two adjacent non-empty text leaves with no whitespace at the shared
boundary each gain a space in a single pass — a trailing one on the first and
a leading one on the second — leaving two consecutive spaces, because the
decisions are taken on the pre-pass contents of both siblings. -/
theorem adjacent_text_double_space (tag : String) (s t : List Char)
    (hs : allWS s = false) (ht : allWS t = false)
    (hes : endsWithWS s = false) (hst : startsWithWS t = false) :
    normalizeWhitespace (.elem tag [.text s, .text t]) =
      .elem tag [.text (s ++ [' ']), .text (' ' :: t)] ∧
    renderText (normalizeWhitespace (.elem tag [.text s, .text t])) =
      s ++ [' '] ++ [' '] ++ t := by
  have h1 : normalizeWhitespace (.elem tag [.text s, .text t]) =
      .elem tag [.text (s ++ [' ']), .text (' ' :: t)] := by
    simp only [normalizeWhitespace, normSibs, normChild, List.head?_cons, List.head?_nil]
    rw [fixText_spec _ _ s hs, fixText_spec _ _ t ht]
    simp [needsLeadingSpace, needsTrailingSpace, hes, hst]
  refine ⟨h1, ?_⟩
  rw [h1]
  simp [renderText, renderList]

/-- Witness for C9 at the concrete boundary `a`/`b`. -/
theorem adjacent_text_double_space_witness :
    normalizeWhitespace (.elem "div" [.text ['a'], .text ['b']]) =
      .elem "div" [.text (['a'] ++ [' ']), .text (' ' :: ['b'])] ∧
    renderText (normalizeWhitespace (.elem "div" [.text ['a'], .text ['b']])) =
      ['a'] ++ [' '] ++ [' '] ++ ['b'] :=
  adjacent_text_double_space "div" ['a'] ['b']
    (by decide) (by decide) (by decide) (by decide)

/-! ## Color parsing (`parseColor` of the style processor, `src/unnamed/part_001`) -/

/-- The regular-expression digit class `\d`, i.e. the characters 0–9. -/
def isDigitChar (c : Char) : Bool := 48 ≤ c.toNat && c.toNat ≤ 57

/-- Decimal value of a digit run, as `parseInt` computes it for an all-digit
capture. -/
def digitsToNat (ds : List Char) : ℕ :=
  ds.foldl (fun n c => 10 * n + (c.toNat - 48)) 0

/-- The optional `a` of `rgba?`: the regex consumes one `a` when present
(backtracking cannot help, since `a` is never `(`). -/
def skipOptA : List Char → List Char
  | 'a' :: r => r
  | r => r

/-- A greedy `\d+` capture: the maximal digit run, failing when empty.
Backtracking into a shorter run is pointless (the next char would again be a
digit, never the `,` the regex wants next), so the greedy run is exact. -/
def parseNum (l : List Char) : Option (ℕ × List Char) :=
  let ds := l.takeWhile isDigitChar
  if ds.isEmpty then none else some (digitsToNat ds, l.dropWhile isDigitChar)

/-- A greedy `\s*`: backtracking is again pointless, since the regex next
wants a digit and whitespace is never a digit. -/
def skipWS (l : List Char) : List Char := l.dropWhile jsWhitespace

/-- A literal `,` of the pattern. -/
def expectComma : List Char → Option (List Char)
  | ',' :: r => some r
  | _ => none

/-- Attempt of the pattern `rgba?\((\d+),\s*(\d+),\s*(\d+)` at the current
position. -/
def matchRgbAt (l : List Char) : Option (ℕ × ℕ × ℕ) :=
  match l with
  | 'r' :: 'g' :: 'b' :: rest =>
    match skipOptA rest with
    | '(' :: r1 =>
      match parseNum r1 with
      | some (n1, r2) =>
        match expectComma r2 with
        | some r3 =>
          match parseNum (skipWS r3) with
          | some (n2, r4) =>
            match expectComma r4 with
            | some r5 =>
              match parseNum (skipWS r5) with
              | some (n3, _) => some (n1, n2, n3)
              | none => none
            | none => none
          | none => none
        | none => none
      | none => none
    | _ => none
  | _ => none

/-- Search `color.match(/rgba?\((\d+),\s*(\d+),\s*(\d+)/)`: the leftmost match in the
string (the pattern is unanchored). -/
def findRgb : List Char → Option (ℕ × ℕ × ℕ)
  | [] => none
  | c :: rest =>
    match matchRgbAt (c :: rest) with
    | some v => some v
    | none => findRgb rest

/-- A hexadecimal digit, as `parseInt(_, 16)` accepts. -/
def isHexDigit (c : Char) : Bool :=
  (48 ≤ c.toNat && c.toNat ≤ 57) || (97 ≤ c.toNat && c.toNat ≤ 102)
    || (65 ≤ c.toNat && c.toNat ≤ 70)

/-- Value of one hexadecimal digit. -/
def hexDigitVal (c : Char) : ℕ :=
  if 48 ≤ c.toNat && c.toNat ≤ 57 then c.toNat - 48
  else if 97 ≤ c.toNat && c.toNat ≤ 102 then c.toNat - 87
  else c.toNat - 55

/-- Model of `parseInt(str, 16)`: leading whitespace skipped, then the maximal
hexadecimal prefix; an empty prefix yields NaN, modelled as `none`. -/
def jsParseHex (l : List Char) : Option ℕ :=
  let l1 := l.dropWhile jsWhitespace
  let ds := l1.takeWhile isHexDigit
  if ds.isEmpty then none
  else some (ds.foldl (fun n c => 16 * n + hexDigitVal c) 0)

/-- The hex branch of `parseColor`, applied to the string after its leading
`#` has been removed: `#abc` doubles each digit, anything else is read as
`substr(0,2)/substr(2,2)/substr(4,2)`. A NaN channel makes the result `none`. -/
def parseHexColor (hex : List Char) : Option (ℕ × ℕ × ℕ) :=
  if hex.length = 3 then
    match hex with
    | [c1, c2, c3] =>
      match jsParseHex [c1, c1], jsParseHex [c2, c2], jsParseHex [c3, c3] with
      | some r, some g, some b => some (r, g, b)
      | _, _, _ => none
    | _ => none
  else
    match jsParseHex (hex.take 2), jsParseHex ((hex.drop 2).take 2),
        jsParseHex ((hex.drop 4).take 2) with
    | some r, some g, some b => some (r, g, b)
    | _, _, _ => none

/-- Function `parseColor` of `src/unnamed/part_001`: the rgb/rgba regex is tried first,
then the `#` hex forms, then the literal `transparent` / `rgba(0, 0, 0, 0)`
policy. `none` models the fall-through the source delegates to the browser's
computed-style resolution (and a NaN from malformed hex). -/
def parseColor (color : String) : Option (ℕ × ℕ × ℕ) :=
  match findRgb color.data with
  | some v => some v
  | none =>
    match color.data with
    | '#' :: hex => parseHexColor hex
    | _ =>
      if color = "transparent" || color = "rgba(0, 0, 0, 0)" then some (255, 255, 255)
      else none

/-- C3 (counterexample): `parseColor` maps `rgba(0, 0, 0, 0)` to black, not to
opaque white — the rgba regex matches first and the dedicated transparent
branch is never reached. -/
theorem parseColor_rgba_zero_is_black :
    parseColor "rgba(0, 0, 0, 0)" = some (0, 0, 0) ∧
    parseColor "rgba(0, 0, 0, 0)" ≠ some (255, 255, 255) :=
  ⟨rfl, by decide⟩

/-- C3 (amended): the literal string `transparent` resolves to opaque white,
but `rgba(0, 0, 0, 0)` is captured by the earlier rgb/rgba regex branch and
resolves to black `(0,0,0)`. -/
theorem parseColor_transparent_policy :
    parseColor "transparent" = some (255, 255, 255) ∧
    parseColor "rgba(0, 0, 0, 0)" = some (0, 0, 0) :=
  ⟨rfl, rfl⟩

theorem takeWhile_run (p : Char → Bool) (d : List Char) (x : Char) (tail : List Char)
    (hd : d.all p = true) (hx : p x = false) :
    (d ++ x :: tail).takeWhile p = d ∧ (d ++ x :: tail).dropWhile p = x :: tail := by
  induction d with
  | nil => simp [List.takeWhile_cons, List.dropWhile_cons, hx]
  | cons c d' ihd =>
    simp only [List.all_cons, Bool.and_eq_true] at hd
    obtain ⟨hc, hd'⟩ := hd
    have ih := ihd hd'
    simp [List.takeWhile_cons, List.dropWhile_cons, hc, ih.1, ih.2]

/-- A `\d+` capture on a digit run followed by a non-digit consumes exactly
the run. -/
theorem parseNum_run (d : List Char) (x : Char) (tail : List Char) (hne : d ≠ [])
    (hd : d.all isDigitChar = true) (hx : isDigitChar x = false) :
    parseNum (d ++ x :: tail) = some (digitsToNat d, x :: tail) := by
  have h := takeWhile_run isDigitChar d x tail hd hx
  have hde : d.isEmpty = false := by cases d with
    | nil => exact absurd rfl hne
    | cons c t => rfl
  simp [parseNum, h.1, h.2, hde]

theorem digit_not_ws (c : Char) (h : isDigitChar c = true) : jsWhitespace c = false := by
  simp only [isDigitChar, Bool.and_eq_true, decide_eq_true_eq] at h
  simp only [jsWhitespace, Bool.or_eq_false_iff, Bool.and_eq_false_iff,
    decide_eq_false_iff_not]
  omega

/-- Skipping `\s*` does not eat into a following digit run. -/
theorem skipWS_digit_run (d tail : List Char) (hne : d ≠ [])
    (hd : d.all isDigitChar = true) : skipWS (d ++ tail) = d ++ tail := by
  cases d with
  | nil => exact absurd rfl hne
  | cons c d' =>
    simp only [List.all_cons, Bool.and_eq_true] at hd
    simp [skipWS, List.dropWhile_cons, digit_not_ws c hd.1]

/-- A successful attempt at the current position is the leftmost match. -/
theorem findRgb_eq_of_matchAt (l : List Char) (v : ℕ × ℕ × ℕ)
    (h : matchRgbAt l = some v) : findRgb l = some v := by
  match l with
  | [] => simp [matchRgbAt] at h
  | c :: rest =>
    rw [show findRgb (c :: rest) =
      (match matchRgbAt (c :: rest) with
       | some v => some v
       | none => findRgb rest) from rfl, h]

/-- When the regex matches, `parseColor` returns its captures. -/
theorem parseColor_eq_of_findRgb (s : String) (v : ℕ × ℕ × ℕ)
    (h : findRgb s.data = some v) : parseColor s = some v := by
  unfold parseColor
  rw [h]

/-- C10: the rgba regex branch of `parseColor` takes precedence and stops at
the third integer capture, so the whole alpha component (and anything after
it) is discarded: `rgba(r, g, b, a)` parses to the opaque triple `(r,g,b)`
for every alpha text `rest`. -/
theorem parseColor_rgba_discards_alpha (d1 d2 d3 rest : List Char)
    (h1 : d1 ≠ []) (h1d : d1.all isDigitChar = true)
    (h2 : d2 ≠ []) (h2d : d2.all isDigitChar = true)
    (h3 : d3 ≠ []) (h3d : d3.all isDigitChar = true) :
    parseColor (String.mk
        ("rgba(".data ++ d1 ++ ", ".data ++ d2 ++ ", ".data ++ d3 ++ ',' :: rest)) =
      some (digitsToNat d1, digitsToNat d2, digitsToNat d3) := by
  have hcm : isDigitChar ',' = false := by decide
  have hm : matchRgbAt ('r' :: 'g' :: 'b' :: 'a' :: '(' ::
      (d1 ++ ',' :: ' ' :: (d2 ++ ',' :: ' ' :: (d3 ++ ',' :: rest)))) =
      some (digitsToNat d1, digitsToNat d2, digitsToNat d3) := by
    simp only [matchRgbAt, skipOptA]
    rw [parseNum_run d1 ',' _ h1 h1d hcm]
    simp only [expectComma]
    have hws2 : skipWS (' ' :: (d2 ++ ',' :: ' ' :: (d3 ++ ',' :: rest))) =
        d2 ++ ',' :: ' ' :: (d3 ++ ',' :: rest) := by
      simp only [skipWS, List.dropWhile_cons]
      rw [show jsWhitespace ' ' = true from by decide]
      simp only [if_true]
      exact skipWS_digit_run d2 _ h2 h2d
    rw [hws2, parseNum_run d2 ',' _ h2 h2d hcm]
    simp only [expectComma]
    have hws3 : skipWS (' ' :: (d3 ++ ',' :: rest)) = d3 ++ ',' :: rest := by
      simp only [skipWS, List.dropWhile_cons]
      rw [show jsWhitespace ' ' = true from by decide]
      simp only [if_true]
      exact skipWS_digit_run d3 _ h3 h3d
    rw [hws3, parseNum_run d3 ',' _ h3 h3d hcm]
  have hlist : "rgba(".data ++ d1 ++ ", ".data ++ d2 ++ ", ".data ++ d3 ++ ',' :: rest =
      'r' :: 'g' :: 'b' :: 'a' :: '(' ::
        (d1 ++ ',' :: ' ' :: (d2 ++ ',' :: ' ' :: (d3 ++ ',' :: rest))) := by
    simp [List.append_assoc]
  apply parseColor_eq_of_findRgb
  rw [show (String.mk ("rgba(".data ++ d1 ++ ", ".data ++ d2 ++ ", ".data ++ d3 ++
      ',' :: rest)).data =
    "rgba(".data ++ d1 ++ ", ".data ++ d2 ++ ", ".data ++ d3 ++ ',' :: rest from rfl, hlist]
  exact findRgb_eq_of_matchAt _ _ hm

/-- Witness for C10 at `rgba(12, 34, 56, 0.5)`. -/
theorem parseColor_rgba_discards_alpha_witness :
    parseColor "rgba(12, 34, 56, 0.5)" = some (12, 34, 56) := by
  have h := parseColor_rgba_discards_alpha ['1', '2'] ['3', '4'] ['5', '6']
    [' ', '0', '.', '5', ')'] (by decide) (by decide) (by decide)
    (by decide) (by decide) (by decide)
  simpa using h

/-! ## Luminance and contrast (`calculateLuminance`, `calculateContrastRatio`) -/

/-- The per-channel linearization of the WCAG relative-luminance formula, on a
channel already scaled to `[0,1]`: `v/12.92` below the 0.03928 knee, else
`((v+0.055)/1.055)^2.4`. -/
noncomputable def channelLinear (v : ℝ) : ℝ :=
  if v ≤ 0.03928 then v / 12.92 else ((v + 0.055) / 1.055) ^ (2.4 : ℝ)

/-- Function `calculateLuminance` of `src/unnamed/part_001`: channels scaled by 255,
linearized, and combined with the WCAG coefficients. -/
noncomputable def calculateLuminance (rgb : ℕ × ℕ × ℕ) : ℝ :=
  0.2126 * channelLinear ((rgb.1 : ℝ) / 255) + 0.7152 * channelLinear ((rgb.2.1 : ℝ) / 255)
    + 0.0722 * channelLinear ((rgb.2.2 : ℝ) / 255)

/-- Function `calculateContrastRatio` of `src/unnamed/part_001`:
`(lighter + 0.05) / (darker + 0.05)`. -/
noncomputable def calculateContrastRatio (lum1 lum2 : ℝ) : ℝ :=
  (max lum1 lum2 + 0.05) / (min lum1 lum2 + 0.05)

theorem channelLinear_nonneg (v : ℝ) (h0 : 0 ≤ v) : 0 ≤ channelLinear v := by
  unfold channelLinear
  split
  · positivity
  · exact Real.rpow_nonneg (by positivity) _

theorem channelLinear_le_one (v : ℝ) (h0 : 0 ≤ v) (h1 : v ≤ 1) : channelLinear v ≤ 1 := by
  unfold channelLinear
  split
  · rw [div_le_one (by norm_num : (0 : ℝ) < 12.92)]
    linarith
  · refine Real.rpow_le_one (by positivity) ?_ (by norm_num)
    rw [div_le_one (by norm_num : (0 : ℝ) < 1.055)]
    linarith

theorem channelLinear_zero : channelLinear 0 = 0 := by
  unfold channelLinear
  norm_num

theorem channelLinear_one : channelLinear 1 = 1 := by
  unfold channelLinear
  rw [if_neg (by norm_num)]
  rw [show ((1 : ℝ) + 0.055) / 1.055 = 1 by norm_num, Real.one_rpow]

/-- C6: `calculateLuminance` is bounded in `[0,1]` on every 8-bit color triple,
black maps to exactly 0 and white to exactly 1. -/
theorem calculateLuminance_bounds :
    (∀ r g b : ℕ, r ≤ 255 → g ≤ 255 → b ≤ 255 →
      0 ≤ calculateLuminance (r, g, b) ∧ calculateLuminance (r, g, b) ≤ 1) ∧
    calculateLuminance (0, 0, 0) = 0 ∧ calculateLuminance (255, 255, 255) = 1 := by
  refine ⟨fun r g b hr hg hb => ?_, ?_, ?_⟩
  · have hr' : (r : ℝ) / 255 ≤ 1 := by
      rw [div_le_one (by norm_num)]
      exact_mod_cast hr
    have hg' : (g : ℝ) / 255 ≤ 1 := by
      rw [div_le_one (by norm_num)]
      exact_mod_cast hg
    have hb' : (b : ℝ) / 255 ≤ 1 := by
      rw [div_le_one (by norm_num)]
      exact_mod_cast hb
    have n1 := channelLinear_nonneg ((r : ℝ) / 255) (by positivity)
    have n2 := channelLinear_nonneg ((g : ℝ) / 255) (by positivity)
    have n3 := channelLinear_nonneg ((b : ℝ) / 255) (by positivity)
    have u1 := channelLinear_le_one ((r : ℝ) / 255) (by positivity) hr'
    have u2 := channelLinear_le_one ((g : ℝ) / 255) (by positivity) hg'
    have u3 := channelLinear_le_one ((b : ℝ) / 255) (by positivity) hb'
    unfold calculateLuminance
    constructor
    · nlinarith
    · nlinarith
  · unfold calculateLuminance
    norm_num [channelLinear_zero]
  · unfold calculateLuminance
    norm_num [channelLinear_one]

/-- Witness for C6 at the triple (10, 20, 30). -/
theorem calculateLuminance_bounds_witness :
    0 ≤ calculateLuminance (10, 20, 30) ∧ calculateLuminance (10, 20, 30) ≤ 1 :=
  calculateLuminance_bounds.1 10 20 30 (by norm_num) (by norm_num) (by norm_num)

/-! ## Style processor tree walks (`src/unnamed/part_001`) -/

/-- The style properties the contrast normalizer reads and writes. -/
structure Style where
  color : Option String := none
  backgroundColor : Option String := none
  visibility : Option String := none
  opacity : Option String := none
deriving Repr, DecidableEq

/-- An element tree as seen by the SHOW_ELEMENT tree walkers of the style
processor; text nodes are invisible to these walkers and omitted. -/
inductive ETree where
  | el (style : Style) (children : List ETree)
deriving Repr

/-- Style of the root element. -/
def ETree.style : ETree → Style
  | .el s _ => s

/-- Children of the root element. -/
def ETree.children : ETree → List ETree
  | .el _ cs => cs

/-- Modelled from the spec: the style/layout-resolution collaborator (§6) the
source reads through `window.getComputedStyle`; the computed `color` is the
element's own declaration, else the nearest declaring ancestor's (the property
inherits), else the default black (§4.2 step 1). `anc` lists the ancestor
styles, nearest first. -/
def computedColor (anc : List Style) (s : Style) : String :=
  (s.color.or (anc.findSome? (·.color))).getD "rgb(0, 0, 0)"

/-- Modelled from the spec: `backgroundColor` does not inherit; an element
without its own declaration reports the fully-transparent default. -/
def computedBg (s : Style) : String :=
  s.backgroundColor.getD "rgba(0, 0, 0, 0)"

/-- The computed background colors of an element and its ancestors, element
first — the chain `getEffectiveBackgroundColor` walks via `parentElement`. -/
def bgChain (anc : List Style) (s : Style) : List String :=
  (s :: anc).map computedBg

/-- The `bgColor && bgColor !== 'transparent' && bgColor !== 'rgba(0, 0, 0, 0)'`
test of the source — plain string comparisons, not color parsing. -/
def isOpaqueBg (bg : String) : Bool :=
  !(bg = "") && !(bg = "transparent") && !(bg = "rgba(0, 0, 0, 0)")

/-- The while-loop of `getEffectiveBackgroundColor`: stops at the first
non-transparent background, at the end of the chain, or at the bound
`maxDepth = 10`, defaulting to white. -/
def effectiveBgLoop : ℕ → List String → String
  | _, [] => "#ffffff"
  | depth, bg :: rest =>
    if depth < 10 then
      if isOpaqueBg bg then bg else effectiveBgLoop (depth + 1) rest
    else "#ffffff"

/-- Function `getEffectiveBackgroundColor` of `src/unnamed/part_001`, as a function of
the computed background chain of the element and its ancestors. -/
def getEffectiveBackgroundColor (chain : List String) : String :=
  effectiveBgLoop 0 chain

/-- Luminance of a color string: `calculateLuminance` of `parseColor`. For the
strings whose parsing the source delegates to the browser, the value is
modelled from the spec's tie-break policy (§4.2: transparent and unresolved
colors score as white). -/
noncomputable def luminanceOf (c : String) : ℝ :=
  calculateLuminance ((parseColor c).getD (255, 255, 255))

/-- Function `isLightOnDark` of `src/unnamed/part_001`: text luminance strictly greater
than background luminance. -/
def isLightOnDark (textColor backgroundColor : String) : Prop :=
  luminanceOf textColor > luminanceOf backgroundColor

/-- Shape of `CONFIG.COLOR_THRESHOLDS` of `src/scripts/config.js`. -/
structure Thresholds where
  lightThreshold : ℝ
  contrastRatio : ℝ

/-- The configured thresholds: 0.5 for light/dark, 4.5 for WCAG AA contrast. -/
noncomputable def COLOR_THRESHOLDS : Thresholds :=
  { lightThreshold := 0.5, contrastRatio := 4.5 }

/-- Function `invertColor` of `src/unnamed/part_001`: a color above the light threshold
becomes black, a dark one is kept unchanged. -/
noncomputable def invertColor (color : String) : String :=
  if luminanceOf color > COLOR_THRESHOLDS.lightThreshold then "#000000" else color

open Classical in
/-- The per-element effect of `invertColorsForPDF`'s collect-then-apply pair.
All reads of the collect phase happen against the pre-pass tree (`anc` are the
original ancestor styles); the apply phase touches only the element's own
style, so the two phases fuse into one per-element function. The Boolean
records whether the element was collected (classified light-on-dark): a
collected element always gets `invertColor` of its computed color assigned,
and its own non-transparent background is cleared to `transparent` when its
luminance is below the light threshold. -/
noncomputable def invertElementStyle (anc : List Style) (s : Style) : Style × Bool :=
  if isLightOnDark (computedColor anc s) (getEffectiveBackgroundColor (bgChain anc s)) then
    if isOpaqueBg (computedBg s) = true ∧
        luminanceOf (computedBg s) < COLOR_THRESHOLDS.lightThreshold then
      ({ s with color := some (invertColor (computedColor anc s)),
                backgroundColor := some "transparent" }, true)
    else ({ s with color := some (invertColor (computedColor anc s)) }, true)
  else (s, false)

/-- The SHOW_ELEMENT walk of `invertColorsForPDF` over a forest of siblings,
returning the rewritten forest and the number of collected elements. Children
are classified against the original ancestor styles, since the collect phase
precedes every mutation. -/
noncomputable def invertWalk : List Style → List ETree → List ETree × ℕ
  | _, [] => ([], 0)
  | anc, .el s cs :: rest =>
    (ETree.el (invertElementStyle anc s).1 (invertWalk (s :: anc) cs).1
        :: (invertWalk anc rest).1,
      (if (invertElementStyle anc s).2 then 1 else 0) + (invertWalk (s :: anc) cs).2
        + (invertWalk anc rest).2)

/-- Function `invertColorsForPDF` of `src/unnamed/part_001`: processes every element
strictly below the walker root and reports how many elements were collected
(the count the source logs). -/
noncomputable def invertColorsForPDF : ETree → ETree × ℕ
  | .el s cs => (.el s (invertWalk [s] cs).1, (invertWalk [s] cs).2)

/-- Modelled from the spec: computed `visibility` inherits, with default
`visible`. -/
def computedVisibility (anc : List Style) (s : Style) : String :=
  (s.visibility.or (anc.findSome? (·.visibility))).getD "visible"

/-- Modelled from the spec: computed `opacity` does not inherit; default 1. -/
def computedOpacity (s : Style) : String := s.opacity.getD "1"

/-- The per-element effect of `ensureTextVisibility`: hidden elements are
forced visible and zero opacity is forced to 1. -/
def ensureElementStyle (anc : List Style) (s : Style) : Style :=
  let s1 := if computedVisibility anc s = "hidden" then
    { s with visibility := some "visible" } else s
  if computedOpacity s1 = "0" then { s1 with opacity := some "1" } else s1

/-- The live walk of `ensureTextVisibility`: a parent's fix is visible to its
children (the walker reads computed styles as it goes), so children receive
the updated ancestor styles. -/
def ensureWalk : List Style → List ETree → List ETree
  | _, [] => []
  | anc, .el s cs :: rest =>
    .el (ensureElementStyle anc s) (ensureWalk (ensureElementStyle anc s :: anc) cs)
      :: ensureWalk anc rest

/-- Function `ensureTextVisibility` of `src/unnamed/part_001` (elements below the
walker root). -/
def ensureTextVisibility : ETree → ETree
  | .el s cs => .el s (ensureWalk [s] cs)

/-- The per-element effect of `fixContrastIssues`: when the WCAG contrast
ratio of the resolved text/background pair is below the configured minimum,
the text color is forced to black. -/
noncomputable def fixElementStyle (anc : List Style) (s : Style) : Style :=
  if calculateContrastRatio (luminanceOf (computedColor anc s))
      (luminanceOf (getEffectiveBackgroundColor (bgChain anc s))) <
      COLOR_THRESHOLDS.contrastRatio then
    { s with color := some "#000000" }
  else s

/-- The live walk of `fixContrastIssues`: an element is examined with its
ancestors' already-rewritten styles (the walker is forward-only, so ancestors
are final when a descendant is visited). -/
noncomputable def fixWalk : List Style → List ETree → List ETree
  | _, [] => []
  | anc, .el s cs :: rest =>
    .el (fixElementStyle anc s) (fixWalk (fixElementStyle anc s :: anc) cs)
      :: fixWalk anc rest

/-- Function `fixContrastIssues` of `src/unnamed/part_001` (elements below the walker
root). -/
noncomputable def fixContrastIssues : ETree → ETree
  | .el s cs => .el s (fixWalk [s] cs)

/-- Function `processStylesForPDF` of `src/unnamed/part_001`: color inversion, then
visibility enforcement, then the contrast fix, in source order; the reported
count is the one logged by the inversion pass. -/
noncomputable def processStylesForPDF (t : ETree) : ETree × ℕ :=
  (fixContrastIssues (ensureTextVisibility (invertColorsForPDF t).1),
    (invertColorsForPDF t).2)

theorem effectiveBgLoop_spec (chain : List String) : ∀ d : ℕ,
    effectiveBgLoop d chain = ((chain.take (10 - d)).find? isOpaqueBg).getD "#ffffff" := by
  induction chain with
  | nil => intro d; simp [effectiveBgLoop]
  | cons bg rest ih =>
    intro d
    by_cases hd : d < 10
    · obtain ⟨k, hk⟩ : ∃ k, 10 - d = k + 1 := ⟨9 - d, by omega⟩
      rw [effectiveBgLoop, if_pos hd, hk]
      by_cases ho : isOpaqueBg bg = true
      · rw [if_pos ho, List.take_succ_cons, List.find?_cons_of_pos _ ho]
        rfl
      · rw [if_neg ho, List.take_succ_cons, List.find?_cons_of_neg _ ho,
          ih (d + 1), show 10 - (d + 1) = k from by omega]
    · rw [effectiveBgLoop, if_neg hd, show 10 - d = 0 from by omega]
      simp

/-- C7: the background walk returns the first non-fully-transparent background
declaration among the element and its first nine ancestors; when none exists
within that depth bound — in particular when the whole chain is transparent,
or when the first opaque declaration sits beyond the bound — it returns white.
Being a total function, it never fails. -/
theorem getEffectiveBackgroundColor_spec (chain : List String) :
    getEffectiveBackgroundColor chain =
      ((chain.take 10).find? isOpaqueBg).getD "#ffffff" := by
  have h := effectiveBgLoop_spec chain 0
  simpa using h

theorem luminanceOf_parse (c : String) (v : ℕ × ℕ × ℕ) (h : parseColor c = some v) :
    luminanceOf c = calculateLuminance v := by
  unfold luminanceOf
  rw [h]
  rfl

theorem lum_yellow : luminanceOf "rgb(255, 255, 0)" = 0.9278 := by
  rw [luminanceOf_parse "rgb(255, 255, 0)" (255, 255, 0) rfl]
  unfold calculateLuminance
  norm_num [channelLinear_one, channelLinear_zero]

theorem lum_black_str : luminanceOf "rgb(0, 0, 0)" = 0 := by
  rw [luminanceOf_parse "rgb(0, 0, 0)" (0, 0, 0) rfl]
  rw [calculateLuminance_bounds.2.1]

/-- The element of Scenario C: declared yellow text on a declared black
background. -/
def yellowStyle : Style :=
  { color := some "rgb(255, 255, 0)", backgroundColor := some "rgb(0, 0, 0)" }

/-- The input tree of Scenario C (the walker root plus the styled element). -/
def scenarioC : ETree := .el {} [.el yellowStyle []]

/-- C4: yellow-on-black is classified light-on-dark (strictly greater text
luminance), the text color is rewritten to `#000000` because its luminance
0.9278 exceeds the 0.5 light threshold, and the element's own dark background
is cleared to `transparent`; the pass reports one rewritten element. -/
theorem scenarioC_inverted :
    isLightOnDark "rgb(255, 255, 0)" "rgb(0, 0, 0)" ∧
    invertColorsForPDF scenarioC =
      (.el {} [.el { color := some "#000000", backgroundColor := some "transparent",
                     visibility := none, opacity := none } []], 1) := by
  have hlod : isLightOnDark "rgb(255, 255, 0)" "rgb(0, 0, 0)" := by
    unfold isLightOnDark
    rw [lum_yellow, lum_black_str]
    norm_num
  have hgt : luminanceOf "rgb(255, 255, 0)" > COLOR_THRESHOLDS.lightThreshold := by
    rw [lum_yellow]
    unfold COLOR_THRESHOLDS
    norm_num
  have hinv : invertColor "rgb(255, 255, 0)" = "#000000" := by
    unfold invertColor
    rw [if_pos hgt]
  have hbglt : luminanceOf (computedBg yellowStyle) < COLOR_THRESHOLDS.lightThreshold := by
    rw [show computedBg yellowStyle = "rgb(0, 0, 0)" from rfl, lum_black_str]
    unfold COLOR_THRESHOLDS
    norm_num
  have hies : invertElementStyle [{}] yellowStyle =
      ({ color := some "#000000", backgroundColor := some "transparent",
         visibility := none, opacity := none }, true) := by
    unfold invertElementStyle
    rw [show computedColor [{}] yellowStyle = "rgb(255, 255, 0)" from rfl,
        show getEffectiveBackgroundColor (bgChain [{}] yellowStyle) = "rgb(0, 0, 0)" from rfl]
    rw [if_pos hlod, if_pos ⟨rfl, hbglt⟩, hinv]
    rfl
  refine ⟨hlod, ?_⟩
  simp only [scenarioC, invertColorsForPDF, invertWalk, hies]
  norm_num

theorem lum_gray100 : luminanceOf "rgb(100, 100, 100)" = channelLinear ((100 : ℝ) / 255) := by
  rw [luminanceOf_parse "rgb(100, 100, 100)" (100, 100, 100) rfl]
  unfold calculateLuminance
  push_cast
  ring

theorem lum_gray120 : luminanceOf "rgb(120, 120, 120)" = channelLinear ((120 : ℝ) / 255) := by
  rw [luminanceOf_parse "rgb(120, 120, 120)" (120, 120, 120) rfl]
  unfold calculateLuminance
  push_cast
  ring

theorem channelLinear_gray100 :
    channelLinear ((100 : ℝ) / 255) = (((100 : ℝ) / 255 + 0.055) / 1.055) ^ (2.4 : ℝ) := by
  unfold channelLinear
  rw [if_neg (by norm_num)]

theorem channelLinear_gray120 :
    channelLinear ((120 : ℝ) / 255) = (((120 : ℝ) / 255 + 0.055) / 1.055) ^ (2.4 : ℝ) := by
  unfold channelLinear
  rw [if_neg (by norm_num)]

/-- The linearized gray channels are ordered: 100 is darker than 120. -/
theorem gray_mono : channelLinear ((100 : ℝ) / 255) ≤ channelLinear ((120 : ℝ) / 255) := by
  rw [channelLinear_gray100, channelLinear_gray120]
  exact Real.rpow_le_rpow (by norm_num) (by norm_num) (by norm_num)

/-- Upper bound for the 120-gray luminance: for a base in `(0,1]` the 2.4
power is at most the square. -/
theorem gray120_upper :
    channelLinear ((120 : ℝ) / 255) ≤ (((120 : ℝ) / 255 + 0.055) / 1.055) ^ (2 : ℕ) := by
  rw [channelLinear_gray120]
  calc (((120 : ℝ) / 255 + 0.055) / 1.055) ^ (2.4 : ℝ)
      ≤ (((120 : ℝ) / 255 + 0.055) / 1.055) ^ ((2 : ℕ) : ℝ) :=
        Real.rpow_le_rpow_of_exponent_ge (by norm_num) (by norm_num) (by norm_num)
    _ = (((120 : ℝ) / 255 + 0.055) / 1.055) ^ (2 : ℕ) := Real.rpow_natCast _ 2

/-- Lower bound for the 100-gray luminance: for a base in `(0,1]` the 2.4
power is at least the cube. -/
theorem gray100_lower :
    (((100 : ℝ) / 255 + 0.055) / 1.055) ^ (3 : ℕ) ≤ channelLinear ((100 : ℝ) / 255) := by
  rw [channelLinear_gray100]
  calc (((100 : ℝ) / 255 + 0.055) / 1.055) ^ (3 : ℕ)
      = (((100 : ℝ) / 255 + 0.055) / 1.055) ^ ((3 : ℕ) : ℝ) := (Real.rpow_natCast _ 3).symm
    _ ≤ (((100 : ℝ) / 255 + 0.055) / 1.055) ^ (2.4 : ℝ) :=
        Real.rpow_le_rpow_of_exponent_ge (by norm_num) (by norm_num) (by norm_num)

/-- Scenario D is not light-on-dark: the text is (weakly) darker than its
background. -/
theorem gray_not_light_on_dark :
    ¬ isLightOnDark "rgb(100, 100, 100)" "rgb(120, 120, 120)" := by
  unfold isLightOnDark
  rw [lum_gray100, lum_gray120]
  simp only [gt_iff_lt, not_lt]
  exact gray_mono

/-- The WCAG contrast ratio of the Scenario D pair is below the 4.5 minimum. -/
theorem gray_ratio_low :
    calculateContrastRatio (luminanceOf "rgb(100, 100, 100)")
        (luminanceOf "rgb(120, 120, 120)") < COLOR_THRESHOLDS.contrastRatio := by
  rw [lum_gray100, lum_gray120]
  unfold calculateContrastRatio COLOR_THRESHOLDS
  have hmax : max (channelLinear ((100 : ℝ) / 255)) (channelLinear ((120 : ℝ) / 255)) =
      channelLinear ((120 : ℝ) / 255) := max_eq_right gray_mono
  have hmin : min (channelLinear ((100 : ℝ) / 255)) (channelLinear ((120 : ℝ) / 255)) =
      channelLinear ((100 : ℝ) / 255) := min_eq_left gray_mono
  rw [hmax, hmin]
  have ha0 : (0 : ℝ) ≤ channelLinear ((100 : ℝ) / 255) :=
    channelLinear_nonneg _ (by norm_num)
  rw [div_lt_iff (by linarith : (0 : ℝ) < channelLinear ((100 : ℝ) / 255) + 0.05)]
  have hup := gray120_upper
  have hlo := gray100_lower
  have hx2 : (((120 : ℝ) / 255 + 0.055) / 1.055) ^ (2 : ℕ) < 0.249 := by norm_num
  have hx1 : (0.076 : ℝ) < (((100 : ℝ) / 255 + 0.055) / 1.055) ^ (3 : ℕ) := by norm_num
  linarith

/-- The element of Scenario D: mid-gray text on a slightly lighter gray
background. -/
def grayStyle : Style :=
  { color := some "rgb(100, 100, 100)", backgroundColor := some "rgb(120, 120, 120)" }

/-- The input tree of Scenario D (the walker root plus the styled element). -/
def scenarioD : ETree := .el {} [.el grayStyle []]

/-- The inversion pass does not touch Scenario D (not light-on-dark) and
reports zero collected elements. -/
theorem invert_scenarioD : invertColorsForPDF scenarioD = (scenarioD, 0) := by
  have hies : invertElementStyle [{}] grayStyle = (grayStyle, false) := by
    unfold invertElementStyle
    rw [show computedColor [{}] grayStyle = "rgb(100, 100, 100)" from rfl,
        show getEffectiveBackgroundColor (bgChain [{}] grayStyle) = "rgb(120, 120, 120)"
          from rfl,
        if_neg gray_not_light_on_dark]
  simp only [scenarioD, invertColorsForPDF, invertWalk, hies]
  norm_num

/-- The visibility pass does not touch Scenario D. -/
theorem ensure_scenarioD : ensureTextVisibility scenarioD = scenarioD := by
  simp only [scenarioD, ensureTextVisibility, ensureWalk,
    show ensureElementStyle [{}] grayStyle = grayStyle from rfl]

/-- The contrast fix forces the Scenario D element to black. -/
theorem fixElem_scenarioD : fixElementStyle [{}] grayStyle =
    { color := some "#000000", backgroundColor := some "rgb(120, 120, 120)",
      visibility := none, opacity := none } := by
  unfold fixElementStyle
  rw [show computedColor [{}] grayStyle = "rgb(100, 100, 100)" from rfl,
      show getEffectiveBackgroundColor (bgChain [{}] grayStyle) = "rgb(120, 120, 120)"
        from rfl,
      if_pos gray_ratio_low]
  rfl

/-- Full evaluation of the pass on Scenario D: the element ends black, the
report stays at zero. -/
theorem process_scenarioD : processStylesForPDF scenarioD =
    (.el {} [.el { color := some "#000000", backgroundColor := some "rgb(120, 120, 120)",
                   visibility := none, opacity := none } []], 0) := by
  unfold processStylesForPDF
  rw [invert_scenarioD]
  simp only [ensure_scenarioD]
  simp only [scenarioD, fixContrastIssues, fixWalk, fixElem_scenarioD]

/-- Per-element postcondition of the `fixContrastIssues` walk, relating the
forest it visits to the forest it leaves: an element whose text/background
pair — resolved at its visit, i.e. against its already-rewritten ancestors —
falls below the contrast threshold leaves the walk with color `#000000`.
Children are relatedly constrained under the rewritten ancestor context. -/
def FixSat : List Style → List ETree → List ETree → Prop
  | _, [], [] => True
  | anc, .el s cs :: rest, .el s' cs' :: rest' =>
    (calculateContrastRatio (luminanceOf (computedColor anc s))
        (luminanceOf (getEffectiveBackgroundColor (bgChain anc s))) <
          COLOR_THRESHOLDS.contrastRatio → s'.color = some "#000000") ∧
    FixSat (s' :: anc) cs cs' ∧ FixSat anc rest rest'
  | _, _, _ => False

theorem fixWalk_sat_aux : ∀ k : ℕ, ∀ ts : List ETree, sizeOf ts ≤ k → ∀ anc : List Style,
    FixSat anc ts (fixWalk anc ts) := by
  intro k
  induction k using Nat.strong_induction_on with
  | _ k ih =>
    intro ts hts anc
    match ts with
    | [] =>
      simp only [fixWalk, FixSat]
    | .el s cs :: rest =>
      have hc : sizeOf cs < k := by
        simp only [List.cons.sizeOf_spec, ETree.el.sizeOf_spec] at hts; omega
      have hr : sizeOf rest < k := by
        simp only [List.cons.sizeOf_spec, ETree.el.sizeOf_spec] at hts; omega
      simp only [fixWalk, FixSat]
      refine ⟨?_, ih (sizeOf cs) hc cs le_rfl _, ih (sizeOf rest) hr rest le_rfl _⟩
      intro hcond
      unfold fixElementStyle
      rw [if_pos hcond]

/-- C5: the contrast-ratio force-to-black runs after the inversion and
visibility steps and is independent of the light-on-dark classification: for
every input tree, every element the `fixContrastIssues` walk visits whose
resolved text/background luminance pair has WCAG ratio `(max+0.05)/(min+0.05)`
below `minContrastRatio = 4.5` ends the pass with text color `#000000`. -/
theorem fixContrast_forces_black (t : ETree) :
    FixSat [(ensureTextVisibility (invertColorsForPDF t).1).style]
      (ensureTextVisibility (invertColorsForPDF t).1).children
      ((processStylesForPDF t).1).children := by
  unfold processStylesForPDF
  cases hx : ensureTextVisibility (invertColorsForPDF t).1 with
  | el s cs =>
    simp only [hx, fixContrastIssues, ETree.style, ETree.children]
    exact fixWalk_sat_aux (sizeOf cs) cs le_rfl [s]

/-- Witness for C5 at Scenario D: gray-on-gray is below the 4.5 ratio, so the
element's final color is `#000000`. -/
theorem fixContrast_forces_black_witness :
    ((processStylesForPDF scenarioD).1).children.map (fun e => (ETree.style e).color) =
      [some "#000000"] := by
  have h := fixContrast_forces_black scenarioD
  rw [invert_scenarioD] at h
  rw [show ((scenarioD, 0) : ETree × ℕ).1 = scenarioD from rfl, ensure_scenarioD] at h
  rw [show scenarioD.style = ({} : Style) from rfl,
      show scenarioD.children = [ETree.el grayStyle []] from rfl] at h
  rcases hout : ((processStylesForPDF scenarioD).1).children with _ | ⟨e1, rest⟩
  · rw [hout] at h
    simp only [FixSat] at h
  · obtain ⟨s', cs'⟩ := e1
    rw [hout] at h
    simp only [FixSat] at h
    obtain ⟨himp, hcs, hrest⟩ := h
    have hcol : s'.color = some "#000000" := by
      apply himp
      rw [show computedColor [{}] grayStyle = "rgb(100, 100, 100)" from rfl,
          show getEffectiveBackgroundColor (bgChain [{}] grayStyle) = "rgb(120, 120, 120)"
            from rfl]
      exact gray_ratio_low
    rcases rest with _ | ⟨e2, r2⟩
    · simp [ETree.style, hcol]
    · obtain ⟨s2, cs2⟩ := e2
      simp only [FixSat] at hrest

open Classical in
/-- The number of elements of a forest classified light-on-dark against the
original (pre-pass) styles — the elements the collect phase of
`invertColorsForPDF` pushes, each of which receives a color assignment. -/
noncomputable def countLightOnDark : List Style → List ETree → ℕ
  | _, [] => 0
  | anc, .el s cs :: rest =>
    (if isLightOnDark (computedColor anc s) (getEffectiveBackgroundColor (bgChain anc s))
      then 1 else 0) + countLightOnDark (s :: anc) cs + countLightOnDark anc rest

open Classical in
/-- An element is collected exactly when it is classified light-on-dark. -/
theorem invertElementStyle_collected (anc : List Style) (s : Style) :
    (if (invertElementStyle anc s).2 = true then 1 else 0) =
      (if isLightOnDark (computedColor anc s) (getEffectiveBackgroundColor (bgChain anc s))
        then (1 : ℕ) else 0) := by
  by_cases h : isLightOnDark (computedColor anc s) (getEffectiveBackgroundColor (bgChain anc s))
  · have h2 : (invertElementStyle anc s).2 = true := by
      unfold invertElementStyle
      rw [if_pos h]
      split <;> rfl
    rw [h2, if_pos h]
    simp
  · have h2 : (invertElementStyle anc s).2 = false := by
      unfold invertElementStyle
      rw [if_neg h]
    rw [h2, if_neg h]
    simp

theorem invertWalk_count : ∀ k : ℕ, ∀ ts : List ETree, sizeOf ts ≤ k → ∀ anc : List Style,
    (invertWalk anc ts).2 = countLightOnDark anc ts := by
  intro k
  induction k using Nat.strong_induction_on with
  | _ k ih =>
    intro ts hts anc
    match ts with
    | [] => simp only [invertWalk, countLightOnDark]
    | .el s cs :: rest =>
      have hc : sizeOf cs < k := by
        simp only [List.cons.sizeOf_spec, ETree.el.sizeOf_spec] at hts; omega
      have hr : sizeOf rest < k := by
        simp only [List.cons.sizeOf_spec, ETree.el.sizeOf_spec] at hts; omega
      simp only [invertWalk, countLightOnDark]
      rw [invertElementStyle_collected, ih (sizeOf cs) hc cs le_rfl (s :: anc),
        ih (sizeOf rest) hr rest le_rfl anc]

/-- C8 (amended): the reported count equals the number of elements classified
light-on-dark by the inversion pass on the original tree — the elements that
receive a `style.color` assignment during inversion. Elements rewritten by
the later contrast-ratio step are not counted. -/
theorem report_count_spec (t : ETree) :
    (processStylesForPDF t).2 = countLightOnDark [t.style] t.children := by
  cases t with
  | el s cs =>
    simp only [processStylesForPDF, invertColorsForPDF, ETree.style, ETree.children]
    exact invertWalk_count (sizeOf cs) cs le_rfl [s]

/-- C8 (counterexample): on Scenario D the pass reports a count of zero while
it rewrites the element's color from gray to black — the recorded count does
not equal the number of elements whose color the pass actually rewrote. -/
theorem report_count_not_rewrites :
    (processStylesForPDF scenarioD).2 = 0 ∧
    scenarioD.children.map (fun e => (ETree.style e).color) = [some "rgb(100, 100, 100)"] ∧
    ((processStylesForPDF scenarioD).1).children.map (fun e => (ETree.style e).color) =
      [some "#000000"] := by
  refine ⟨?_, by simp [scenarioD, grayStyle, ETree.style, ETree.children], ?_⟩
  · rw [process_scenarioD]
  · rw [process_scenarioD]
    simp [ETree.style, ETree.children]
